import Mathlib

/-!
# Rikugan 0.2.0 — verification of the streaming/visualization spec

Shallow embedding of the parts of `rikugan-0.2.0` that the specification
talks about:

* `frontend/src/stores/activationStore.ts` — slice/projection offset
  arithmetic and the Zustand activation store;
* `frontend/src/components/terminal/useTerminal.ts` — the WebSocket binary
  frame handler (tag dispatch);
* `frontend/src/services/websocket.ts` — the outgoing message vocabulary;
* `frontend/src/components/viewport/ModelBlocks.tsx` — the fallback
  z-score/clamp color normalization;
* the chunk transport, history store and playback engine of the spec,
  which have no counterpart under `frontend/` (the backend sends each
  payload as a single tagged WebSocket frame), modelled from the spec.

JavaScript numbers are modelled as exact rationals (`ℚ`); `Float32Array`
views over an `ArrayBuffer` are modelled by their underlying byte
sequences (`List ℕ`, one entry per byte).
-/

namespace Rikugan

/-! ## Activation store (`frontend/src/stores/activationStore.ts`) -/

/-- `SLICE_NAMES.length`: the six per-layer slices
`resid_pre, attn_out, delta_attn, mlp_out, delta_mlp, resid_post`. -/
def NUM_SLICES : ℕ := 6

/-- `getSliceOffset(layer, sliceIdx, seqLen, dModel)` from
`activationStore.ts`: flat float offset of slice `(layer, sliceIdx)`. -/
def getSliceOffset (layer sliceIdx seqLen dModel : ℕ) : ℕ :=
  (layer * NUM_SLICES + sliceIdx) * seqLen * dModel

/-- `getTokenProjSlice` start offset: `layer * NUM_SLICES * seqLen`. -/
def getTokenProjOffset (layer seqLen : ℕ) : ℕ :=
  layer * NUM_SLICES * seqLen

/-- `getDimProjSlice` start offset: `layer * NUM_SLICES * dModel`. -/
def getDimProjOffset (layer dModel : ℕ) : ℕ :=
  layer * NUM_SLICES * dModel

/-- `activation.slices` metadata (`SliceMeta` in `activationStore.ts`). -/
structure SliceMeta where
  seq_len : ℕ
  d_model : ℕ
deriving DecidableEq, Repr

/-- `activation.projections` metadata (`ProjMeta` in `activationStore.ts`). -/
structure ProjMeta where
  num_layers : ℕ
  seq_len : ℕ
  d_model : ℕ
  num_stages : ℕ
  token_proj_size : ℕ
deriving DecidableEq, Repr

/-- The Zustand activation store state (`ActivationState` in
`activationStore.ts`).  Binary `Float32Array` fields are modelled by their
underlying byte sequences. -/
structure ActivationState where
  blockHeat : Option (List ℚ)
  numLayers : ℕ
  prompt : Option String
  sliceData : Option (List ℕ)
  sliceMeta : Option SliceMeta
  tokenProj : Option (List ℕ)
  dimProj : Option (List ℕ)
  projMeta : Option ProjMeta
deriving DecidableEq, Repr

/-- The store's initial state (the object literal passed to `create`). -/
def ActivationState.init : ActivationState :=
  { blockHeat := none, numLayers := 0, prompt := none, sliceData := none,
    sliceMeta := none, tokenProj := none, dimProj := none, projMeta := none }

/-! ## Outgoing WebSocket messages (`frontend/src/types/messages.ts`)

`WsOutgoing = WsInferenceRun` is the whole consumer→producer vocabulary:
`WebSocketService.send` JSON-serializes exactly these values. -/

/-- `WsOutgoing` from `types/messages.ts`: the only outgoing message type is
`inference.run` with a prompt and an optional `max_new_tokens`. -/
inductive WsOutgoing where
  | inferenceRun (prompt : String) (max_new_tokens : Option ℕ)
deriving DecidableEq, Repr

/-! ## The binary frame handler (`useTerminal.ts`, `wsService.onBinary`) -/

/-- `new Uint32Array(data, 0, 1)[0]` on a little-endian host: the first four
bytes read as a little-endian 32-bit word. -/
def readU32LE (data : List ℕ) : ℕ :=
  data.getD 0 0 + 2 ^ 8 * data.getD 1 0 + 2 ^ 16 * data.getD 2 0 +
    2 ^ 24 * data.getD 3 0

/-- The `wsService.onBinary` handler registered by `useTerminal`:

* frames shorter than 4 bytes return immediately;
* otherwise the first 4 bytes are a little-endian tag and
  `payload = data.slice(4)`;
* tag `0x01`: `setSliceData(new Float32Array(payload))` — the constructor
  throws a `RangeError` when `payload.byteLength` is not a multiple of 4;
* tag `0x02`: when `projMeta` is `null` nothing happens; otherwise
  `tokenProjFloats = token_proj_size / 4` (`ToIndex` truncates) and
  `setTokenProj(new Float32Array(payload, 0, tokenProjFloats))` then
  `setDimProj(new Float32Array(payload, token_proj_size))`, each
  constructor throwing a `RangeError` on out-of-bounds or misaligned
  arguments;
* any other tag falls through the `switch` with no effect.

`.ok s` is a normal return with the store in state `s`; `.error s` records
that a constructor threw with the store left in state `s` (the throw in
the second constructor happens after `setTokenProj` already ran). -/
def binaryHandler (data : List ℕ) (s : ActivationState) :
    Except ActivationState ActivationState :=
  if data.length < 4 then .ok s
  else
    let tag := readU32LE data
    let payload := data.drop 4
    if tag = 1 then
      if payload.length % 4 = 0 then .ok { s with sliceData := some payload }
      else .error s
    else if tag = 2 then
      match s.projMeta with
      | none => .ok s
      | some meta =>
        let tokenProjFloats := meta.token_proj_size / 4
        if payload.length < tokenProjFloats * 4 then .error s
        else
          let s1 := { s with tokenProj := some (payload.take (tokenProjFloats * 4)) }
          if meta.token_proj_size % 4 = 0 ∧ meta.token_proj_size ≤ payload.length ∧
              payload.length % 4 = 0 then
            .ok { s1 with dimProj := some (payload.drop meta.token_proj_size) }
          else .error s1
    else .ok s

/-- Messages the binary handler passes to `wsService.send`, branch by
branch.  The handler body in `useTerminal.ts` only calls activation-store
setters; no branch contains a `send` call. -/
def binaryHandlerSends (data : List ℕ) (s : ActivationState) : List WsOutgoing :=
  if data.length < 4 then []
  else
    let tag := readU32LE data
    if tag = 1 then []
    else if tag = 2 then
      match s.projMeta with
      | none => []
      | some _ => []
    else []

/-! ## Fallback block coloring (`ModelBlocks.tsx`, `FallbackBlocks`) -/

/-- `sum / blockHeat.length` from the `FallbackBlocks` color effect. -/
def meanQ (xs : List ℚ) : ℚ := xs.sum / xs.length

/-- `sumSq / blockHeat.length - mean * mean`. -/
def varianceQ (xs : List ℚ) : ℚ :=
  (xs.map fun x => x * x).sum / xs.length - meanQ xs * meanQ xs

/-- `Math.sqrt(Math.max(0, variance))`, with `Math.sqrt` modelled by
`Rat.sqrt` (exact on perfect-square rationals; the guarded branch and the
clamp bounds proved below do not depend on its values). -/
def stddevQ (xs : List ℚ) : ℚ := Rat.sqrt (max 0 (varianceQ xs))

/-- The per-layer normalized intensity of `FallbackBlocks` before the gamma
power: `0.5` when `stddev < 1e-8`, otherwise the z-score rescaled by
`(z + 2) / 4` and clamped to `[0, 1]`. -/
def fallbackNormalized (xs : List ℚ) (i : ℕ) : ℚ :=
  if stddevQ xs < 1 / 100000000 then 1 / 2
  else
    let z := (xs.getD i 0 - meanQ xs) / stddevQ xs
    max 0 (min 1 ((z + 2) / 4))

/-- Modelled from the spec: the z-score transform of §4.2(b), which maps
every element to `(x - mean) / stddev` with no clamping or rescaling
("values left unbounded").  Stated for comparison with
`fallbackNormalized`; the backend Resolution Processor is not under
`frontend/`. -/
def specZscore (xs : List ℚ) (i : ℕ) : ℚ :=
  (xs.getD i 0 - meanQ xs) / stddevQ xs

/-! ## Chunk transport (spec §4.3, §4.4, §4.6)

Modelled from the spec: the chunked wire transport has no counterpart under
`frontend/` — the backend WebSocket route sends each serialized payload as
one tagged binary frame (`ws_max_size` is raised to 400 MB instead). -/

/-- Modelled from the spec: `ChunkHeader` —
`{ batch_id, chunk_index, chunk_count, byte_offset }`, four `uint32`s. -/
structure ChunkHeader where
  batch_id : ℕ
  chunk_index : ℕ
  chunk_count : ℕ
  byte_offset : ℕ
deriving DecidableEq, Repr

/-- Modelled from the spec: a Chunk, a bounded-size unit carrying its
header and its byte payload. -/
structure Chunk where
  header : ChunkHeader
  bytes : List ℕ
deriving DecidableEq, Repr

/-- Modelled from the spec: `chunk_count = ceil(payload_bytes / chunk_size)`. -/
def chunkCount (payloadLen c : ℕ) : ℕ := (payloadLen + c - 1) / c

/-- Modelled from the spec: split a serialized payload into `chunkCount`
chunks of at most `c` bytes; chunk `i` starts at `byte_offset = i * c` and
the final chunk may be short. -/
def chunkify (batchId : ℕ) (payload : List ℕ) (c : ℕ) : List Chunk :=
  (List.range (chunkCount payload.length c)).map fun i =>
    { header := { batch_id := batchId, chunk_index := i,
                  chunk_count := chunkCount payload.length c,
                  byte_offset := i * c },
      bytes := (payload.drop (i * c)).take c }

/-- Whether a chunk's byte range covers absolute offset `j`. -/
def Chunk.covers (ch : Chunk) (j : ℕ) : Prop :=
  ch.header.byte_offset ≤ j ∧ j < ch.header.byte_offset + ch.bytes.length

instance (ch : Chunk) (j : ℕ) : Decidable (ch.covers j) := by
  unfold Chunk.covers; infer_instance

/-- Modelled from the spec: write one received chunk's bytes into the
reassembly buffer at its declared offset (the buffer is keyed by absolute
byte offset; unfilled positions are `none`). -/
def writeChunk (buf : ℕ → Option ℕ) (ch : Chunk) : ℕ → Option ℕ :=
  fun j =>
    if ch.covers j then some (ch.bytes.getD (j - ch.header.byte_offset) 0)
    else buf j

/-- Modelled from the spec: accumulate the received chunks, in arrival
order, into the reassembly buffer. -/
def reassembleBuf (cs : List Chunk) : ℕ → Option ℕ :=
  cs.foldl writeChunk fun _ => none

/-- Modelled from the spec: the reassembled payload once coverage reaches
the declared payload length `len`. -/
def reassemble (len : ℕ) (cs : List Chunk) : List ℕ :=
  (List.range len).map fun j => (reassembleBuf cs j).getD 0

/-! ## History Store (spec §4.1)

Modelled from the spec: the bounded history store has no counterpart under
`frontend/` (temporal playback is a later roadmap phase).  `entries` holds
the resident records oldest-first; `nextStep` is the next step index the
producer will use, so `get` can distinguish `Expired` from `NotFound`. -/

/-- Modelled from the spec: `NotFound` (never produced) versus `Expired`
(evicted) for `HistoryStore.get`. -/
inductive GetError where
  | notFound
  | expired
deriving DecidableEq, Repr

/-- Modelled from the spec: fixed-capacity circular collection of records
keyed by step index, FIFO eviction. -/
structure HistoryStore (α : Type) where
  cap : ℕ
  entries : List (ℕ × α)
  nextStep : ℕ
deriving DecidableEq, Repr

/-- An empty store of capacity `cap`. -/
def HistoryStore.empty (α : Type) (cap : ℕ) : HistoryStore α :=
  ⟨cap, [], 0⟩

/-- Modelled from the spec: `append(record)` — inserts the record at the
next step index, evicting the oldest resident record when the store is at
capacity. -/
def HistoryStore.append {α : Type} (st : HistoryStore α) (r : α) : HistoryStore α :=
  let kept := if st.cap ≤ st.entries.length then st.entries.tail else st.entries
  ⟨st.cap, kept ++ [(st.nextStep, r)], st.nextStep + 1⟩

/-- Modelled from the spec: `get(step)` — the record if resident,
`Expired` if the step was produced but evicted, `NotFound` if it was never
produced. -/
def HistoryStore.get {α : Type} (st : HistoryStore α) (s : ℕ) : Except GetError α :=
  match st.entries.find? (fun e => e.1 = s) with
  | some e => .ok e.2
  | none => if s < st.nextStep then .error .expired else .error .notFound

/-- Modelled from the spec: `range()` — the currently resident
`[oldest, newest]` step interval, `none` when the store is empty. -/
def HistoryStore.range {α : Type} (st : HistoryStore α) : Option (ℕ × ℕ) :=
  match st.entries.head?, st.entries.getLast? with
  | some lo, some hi => some (lo.1, hi.1)
  | _, _ => none

/-- Append records `f 0, f 1, …, f (n-1)` in order into an initially empty
store of capacity `cap` (the producer calls `append` once per step). -/
def fillStore (α : Type) (cap : ℕ) (f : ℕ → α) : ℕ → HistoryStore α
  | 0 => HistoryStore.empty α cap
  | n + 1 => (fillStore α cap f n).append (f n)

/-! ## Playback Engine (spec §4.5)

Modelled from the spec: no playback engine exists under `frontend/`
(roadmap Phase 4). -/

/-- Modelled from the spec: the engine's run-state —
`Idle`, `Playing(speed)`, `Paused(step)`, `Seeking`. -/
inductive RunState where
  | idle
  | playing (speed : ℚ)
  | paused (step : ℕ)
  | seeking
deriving DecidableEq, Repr

/-- Modelled from the spec: typed playback errors. -/
inductive PlayError where
  | outOfRange
  | expired
deriving DecidableEq, Repr

/-- Modelled from the spec: the playback cursor and run-state of one
consuming session. -/
structure Engine where
  current : ℕ
  run : RunState
deriving DecidableEq, Repr

/-- A step is resident when it lies inside the store's `range()`. -/
def residentB {α : Type} (st : HistoryStore α) (s : ℕ) : Bool :=
  match st.range with
  | some (lo, hi) => lo ≤ s ∧ s ≤ hi
  | none => false

/-- Modelled from the spec: `seek(step)` — validated against
`HistoryStore.range()`; if resident the engine transitions to
`Paused(step)` with the cursor on `step`, otherwise it is rejected with
`OutOfRange` and the engine remains in its prior state (the caller's
engine value is unchanged). -/
def Engine.seek {α : Type} (_e : Engine) (st : HistoryStore α) (s : ℕ) :
    Except PlayError Engine :=
  if residentB st s then .ok ⟨s, .paused s⟩ else .error .outOfRange

/-- Modelled from the spec: `step(±1)` — computes `target = current ± 1`
and behaves like `seek` (implicitly pausing). A negative target is not a
resident step, so it is rejected like any other non-resident target. -/
def Engine.stepBy {α : Type} (e : Engine) (st : HistoryStore α) (δ : ℤ) :
    Except PlayError Engine :=
  let target : ℤ := (e.current : ℤ) + δ
  if target < 0 then .error .outOfRange
  else e.seek st target.toNat

/-! ## Producer-side flat payload layout (spec §4.3)

Modelled from the spec: the backend serializer (not under `frontend/`)
lays the numeric payload out as a flat float sequence ordered, outermost
to innermost: layer, sub-component (`NUM_SLICES` per layer), sequence
position, feature index. -/

/-- Modelled from the spec: flatten per-element activations
`f layer slice pos feat` in the documented fixed element order. -/
def flattenActs (f : ℕ → ℕ → ℕ → ℕ → ℚ) (L sq dm : ℕ) : List ℚ :=
  (List.range L).flatMap fun l =>
    (List.range NUM_SLICES).flatMap fun sl =>
      (List.range sq).flatMap fun p =>
        (List.range dm).map fun j => f l sl p j

/-- One slice `(l, sl)` flattened in (sequence position, feature) order —
what `ModelBlocks.tsx` reads back with
`sliceData.subarray(offset, offset + seq_len * d_model)`. -/
def flattenSlice (g : ℕ → ℕ → ℚ) (sq dm : ℕ) : List ℚ :=
  (List.range sq).flatMap fun p => (List.range dm).map fun j => g p j

/-- A concrete `block_heat` test vector with one outlier: mean `1/3`,
variance exactly `1`, z-score of the outlier exactly `3`. -/
def outlierHeat : List ℚ := [0, 0, 0, 0, 0, 0, 0, 0, 0, 10 / 3]

/-! # Theorems -/

/-! ## Helper lemmas -/

theorem ratSqrt_zero : Rat.sqrt 0 = 0 := by
  norm_num [Rat.sqrt]

theorem ratSqrt_one : Rat.sqrt 1 = 1 := by
  norm_num [Rat.sqrt]

theorem stddevQ_outlier : stddevQ outlierHeat = 1 := by
  have hv : varianceQ outlierHeat = 1 := by
    norm_num [varianceQ, meanQ, outlierHeat]
  rw [stddevQ, hv, max_eq_right (by norm_num : (0 : ℚ) ≤ 1), ratSqrt_one]

theorem stddevQ_const3 : stddevQ [(5 : ℚ), 5, 5] = 0 := by
  have hv : varianceQ [(5 : ℚ), 5, 5] = 0 := by
    norm_num [varianceQ, meanQ]
  rw [stddevQ, hv, max_self, ratSqrt_zero]

/-! ## C8 — short or unknown-tag frames leave the store untouched -/

/-- C8: every binary frame shorter than 4 bytes, and every frame whose
leading 4-byte little-endian tag is neither `0x01` nor `0x02`, leaves the
activation state completely unchanged (the handler returns normally and no
field is modified). -/
theorem binary_handler_ignores_unknown (data : List ℕ) (s : ActivationState)
    (h : data.length < 4 ∨ (readU32LE data ≠ 1 ∧ readU32LE data ≠ 2)) :
    binaryHandler data s = .ok s := by
  rcases h with h | ⟨h1, h2⟩
  · simp [binaryHandler, h]
  · by_cases hlen : data.length < 4
    · simp [binaryHandler, hlen]
    · simp [binaryHandler, hlen, h1, h2]

/-- C8 witness: a 5-byte frame with tag `0x03` is ignored. -/
theorem binary_handler_ignores_unknown_witness :
    ([3, 0, 0, 0, 1].length < 4 ∨
      (readU32LE [3, 0, 0, 0, 1] ≠ 1 ∧ readU32LE [3, 0, 0, 0, 1] ≠ 2)) ∧
    binaryHandler [3, 0, 0, 0, 1] ActivationState.init = .ok ActivationState.init :=
  ⟨Or.inr ⟨by decide, by decide⟩,
    binary_handler_ignores_unknown [3, 0, 0, 0, 1] ActivationState.init
      (Or.inr ⟨by decide, by decide⟩)⟩

/-! ## C9 — projection frames: dropped without metadata, split at
`token_proj_size` with it -/

/-- C9: a tag-`0x02` frame arriving while `projMeta` is `null` is dropped
atomically — neither `tokenProj` nor `dimProj` (nor anything else) is
updated; when metadata is present (and the sizes are 4-byte aligned and in
bounds, so that neither `Float32Array` constructor throws), the payload is
split exactly at byte offset `token_proj_size`: the first part becomes
`tokenProj`, the remainder `dimProj`. -/
theorem projection_frame_atomic_split (data : List ℕ) (s : ActivationState)
    (h4 : 4 ≤ data.length) (htag : readU32LE data = 2) :
    (s.projMeta = none → binaryHandler data s = .ok s) ∧
    (∀ meta, s.projMeta = some meta →
      meta.token_proj_size % 4 = 0 →
      meta.token_proj_size ≤ data.length - 4 →
      (data.length - 4) % 4 = 0 →
      binaryHandler data s =
        .ok { s with tokenProj := some ((data.drop 4).take meta.token_proj_size),
                     dimProj := some ((data.drop 4).drop meta.token_proj_size) }) := by
  have hlen : ¬ data.length < 4 := by omega
  constructor
  · intro hnone
    simp [binaryHandler, hlen, htag, hnone]
  · intro meta hsome hmod hle hpay
    have hplen : (data.drop 4).length = data.length - 4 := List.length_drop 4 data
    have hdvd : 4 ∣ meta.token_proj_size := Nat.dvd_of_mod_eq_zero hmod
    have hfloats : meta.token_proj_size / 4 * 4 = meta.token_proj_size :=
      Nat.div_mul_cancel hdvd
    have hbound : ¬ (data.drop 4).length < meta.token_proj_size / 4 * 4 := by
      rw [hplen, hfloats]; omega
    simp [binaryHandler, hlen, htag, hsome, hbound, hfloats, hplen, hmod, hle, hpay]

/-- C9 witness: a 16-byte frame with tag `0x02` and
`token_proj_size = 8` splits its 12-byte payload into 8 + 4 bytes. -/
theorem projection_frame_atomic_split_witness :
    4 ≤ ([2, 0, 0, 0] ++ List.replicate 12 9).length ∧
    readU32LE ([2, 0, 0, 0] ++ List.replicate 12 9) = 2 ∧
    binaryHandler ([2, 0, 0, 0] ++ List.replicate 12 9)
        { ActivationState.init with projMeta := some ⟨2, 3, 4, 6, 8⟩ } =
      .ok { ActivationState.init with
              projMeta := some ⟨2, 3, 4, 6, 8⟩,
              tokenProj := some ((([2, 0, 0, 0] ++ List.replicate 12 9).drop 4).take 8),
              dimProj := some ((([2, 0, 0, 0] ++ List.replicate 12 9).drop 4).drop 8) } :=
  ⟨by decide, by decide,
    (projection_frame_atomic_split ([2, 0, 0, 0] ++ List.replicate 12 9)
        { ActivationState.init with projMeta := some ⟨2, 3, 4, 6, 8⟩ }
        (by decide) (by decide)).2 ⟨2, 3, 4, 6, 8⟩ rfl
      (by decide) (by decide) (by decide)⟩

/-! ## C1 — what precedes the payload: a 16-byte chunk header (claim)
versus a 4-byte tag (code) -/

/-- C1 counterexample: the consumer's binary receive handler does not
parse a 16-byte chunk header.  On this concrete 20-byte frame it reads
only the 4-byte little-endian tag `0x01` and stores everything from byte
offset 4 onward (16 bytes) as the slice payload; had it parsed a 16-byte
`{batch_id, chunk_index, chunk_count, byte_offset}` header, the payload
would have started at offset 16 (4 bytes) — and the two differ. -/
theorem chunk_header_claim_counterexample :
    binaryHandler ([1] ++ List.replicate 19 0) ActivationState.init =
      .ok { ActivationState.init with
              sliceData := some (([1] ++ List.replicate 19 0).drop 4) } ∧
    ([1] ++ List.replicate 19 0).drop 4 ≠ ([1] ++ List.replicate 19 0).drop 16 :=
  ⟨rfl, by decide⟩

/-- C1 amended: every binary unit is sent as one frame whose payload is
prefixed with a single 4-byte little-endian type tag (`0x01` slice data,
`0x02` projection data), and the consumer's binary receive handler parses
exactly this 4-byte tag before the payload: the bytes at offsets 0..3 are
interpreted as the tag and the payload begins at offset 4 (no 16-byte
chunk header exists on the wire or is parsed). -/
theorem binary_handler_four_byte_tag (data : List ℕ) (s : ActivationState)
    (h4 : 4 ≤ data.length) :
    (readU32LE data = 1 → (data.length - 4) % 4 = 0 →
      binaryHandler data s = .ok { s with sliceData := some (data.drop 4) }) ∧
    (readU32LE data ≠ 1 → readU32LE data ≠ 2 → binaryHandler data s = .ok s) := by
  have hlen : ¬ data.length < 4 := by omega
  constructor
  · intro htag hmod
    have hplen : (data.drop 4).length % 4 = 0 := by
      rw [List.length_drop]; exact hmod
    simp [binaryHandler, hlen, htag, hplen, hmod]
  · intro h1 h2
    simp [binaryHandler, hlen, h1, h2]

/-- C1 amended witness: the 20-byte tag-`0x01` frame stores its 16-byte
payload, which starts at offset 4. -/
theorem binary_handler_four_byte_tag_witness :
    4 ≤ ([1] ++ List.replicate 19 0).length ∧
    readU32LE ([1] ++ List.replicate 19 0) = 1 ∧
    binaryHandler ([1] ++ List.replicate 19 0) ActivationState.init =
      .ok { ActivationState.init with
              sliceData := some (([1] ++ List.replicate 19 0).drop 4) } :=
  ⟨by decide, by decide,
    (binary_handler_four_byte_tag ([1] ++ List.replicate 19 0) ActivationState.init
        (by decide)).1 (by decide) (by decide)⟩

/-! ## C2 — the consumer sends no per-chunk acknowledgment -/

/-- C2 counterexample: a received binary frame laid out exactly like a
spec Chunk (16-byte header `{batch_id = 9, chunk_index = 0,
chunk_count = 1, byte_offset = 0}` followed by one payload byte) causes
the consumer to send nothing at all — no 4-byte `{batch_id}`
acknowledgment message is produced (the frame's leading word `9` is an
unknown tag, so the handler also drops it). -/
theorem no_ack_counterexample :
    binaryHandlerSends
        [9, 0, 0, 0, 0, 0, 0, 0, 1, 0, 0, 0, 0, 0, 0, 0, 42]
        ActivationState.init = [] ∧
    binaryHandler [9, 0, 0, 0, 0, 0, 0, 0, 1, 0, 0, 0, 0, 0, 0, 0, 42]
        ActivationState.init = .ok ActivationState.init :=
  ⟨rfl, rfl⟩

/-- C2 amended: the consumer sends no acknowledgment for received binary
data: the binary receive handler passes no message to
`WebSocketService.send` on any frame and any store state, and the entire
consumer→producer message vocabulary (`WsOutgoing`) consists of the JSON
`inference.run` command — it contains no acknowledgment message at all. -/
theorem consumer_sends_no_acknowledgment :
    (∀ (data : List ℕ) (s : ActivationState), binaryHandlerSends data s = []) ∧
    (∀ m : WsOutgoing, ∃ p t, m = WsOutgoing.inferenceRun p t) := by
  constructor
  · intro data s
    simp only [binaryHandlerSends]
    repeat' split
    all_goals rfl
  · intro m
    cases m with
    | inferenceRun p t => exact ⟨p, t, rfl⟩

/-! ## C4 — the z-score values are rescaled and clamped, not left
unbounded -/

/-- C4 counterexample: on `outlierHeat` (mean `1/3`, stddev `1`) the
outlier's z-score is `3`, but `FallbackBlocks` displays `1` for it — the
value `(z + 2) / 4 = 5/4` is clamped into `[0, 1]`, so the transform is
not the unbounded `(x - mean) / stddev` map the claim describes. -/
theorem zscore_unbounded_counterexample :
    fallbackNormalized outlierHeat 9 = 1 ∧
    specZscore outlierHeat 9 = 3 ∧
    fallbackNormalized outlierHeat 9 ≠ specZscore outlierHeat 9 := by
  have hmean : meanQ outlierHeat = 1 / 3 := by norm_num [meanQ, outlierHeat]
  have hget : outlierHeat.getD 9 0 = 10 / 3 := rfl
  have hz : specZscore outlierHeat 9 = 3 := by
    rw [specZscore, stddevQ_outlier, hmean, hget]; norm_num
  have hcond : ¬ stddevQ outlierHeat < 1 / 100000000 := by
    rw [stddevQ_outlier]; norm_num
  have hf : fallbackNormalized outlierHeat 9 = 1 := by
    simp only [fallbackNormalized, stddevQ_outlier, hmean, hget, if_neg hcond]
    have h54 : ((10 / 3 - 1 / 3) / (1 : ℚ) + 2) / 4 = 5 / 4 := by norm_num
    rw [h54, min_eq_left (by norm_num : (1 : ℚ) ≤ 5 / 4),
      max_eq_right (by norm_num : (0 : ℚ) ≤ 1),
      if_neg (by norm_num : ¬ (1 : ℚ) < 1 / 100000000)]
  exact ⟨hf, hz, by rw [hf, hz]; norm_num⟩

/-- C4 amended: whenever the guard does not fire (stddev at least `1e-8`),
the normalization maps element `i` to its z-score `(x - mean) / stddev`
rescaled by `(z + 2) / 4` and clamped into `[0, 1]` — the values are
bounded, not left unbounded. -/
theorem zscore_rescaled_clamped (xs : List ℚ) (i : ℕ)
    (h : ¬ stddevQ xs < 1 / 100000000) :
    fallbackNormalized xs i = max 0 (min 1 ((specZscore xs i + 2) / 4)) := by
  rw [fallbackNormalized, if_neg h, specZscore]

/-- C4 amended witness: the outlier of `outlierHeat` lands on the clamp. -/
theorem zscore_rescaled_clamped_witness :
    ¬ stddevQ outlierHeat < 1 / 100000000 ∧
    fallbackNormalized outlierHeat 9 =
      max 0 (min 1 ((specZscore outlierHeat 9 + 2) / 4)) := by
  have hcond : ¬ stddevQ outlierHeat < 1 / 100000000 := by
    rw [stddevQ_outlier]; norm_num
  exact ⟨hcond, zscore_rescaled_clamped outlierHeat 9 hcond⟩

/-! ## C10 — guarded division and bounded normalized values -/

/-- C10: the division by the standard deviation in `FallbackBlocks` is
guarded: whenever the array's standard deviation is below `1e-8` every
layer's normalized intensity is exactly `0.5` (the division branch is not
taken); every constant array has standard deviation exactly `0`, so it
falls under the guard; and for every input array the normalized value
lies in `[0, 1]` before the gamma power is applied. -/
theorem fallback_guard_and_bounds (xs : List ℚ) (i : ℕ)
    (hlen : 0 < xs.length) (_hi : i < xs.length) :
    (stddevQ xs < 1 / 100000000 → fallbackNormalized xs i = 1 / 2) ∧
    (∀ c : ℚ, xs = List.replicate xs.length c → stddevQ xs = 0) ∧
    0 ≤ fallbackNormalized xs i ∧ fallbackNormalized xs i ≤ 1 := by
  refine ⟨fun h => by rw [fallbackNormalized, if_pos h], ?_, ?_, ?_⟩
  · intro c hconst
    have hn : ((xs.length : ℚ)) ≠ 0 := by
      have h' : xs.length ≠ 0 := Nat.pos_iff_ne_zero.mp hlen
      exact_mod_cast h'
    have hsum : xs.sum = (xs.length : ℚ) * c := by
      conv_lhs => rw [hconst]
      rw [List.sum_replicate, nsmul_eq_mul]
    have hmean : meanQ xs = c := by
      rw [meanQ, hsum, mul_div_cancel_left₀ _ hn]
    have hsq : (xs.map fun x => x * x).sum = (xs.length : ℚ) * (c * c) := by
      conv_lhs => rw [hconst]
      rw [List.map_replicate, List.sum_replicate, nsmul_eq_mul]
    have hvar : varianceQ xs = 0 := by
      rw [varianceQ, hsq, hmean, mul_div_cancel_left₀ _ hn, sub_self]
    rw [stddevQ, hvar, max_self, ratSqrt_zero]
  · rw [fallbackNormalized]
    split
    · norm_num
    · exact le_max_left 0 _
  · rw [fallbackNormalized]
    split
    · norm_num
    · exact max_le (by norm_num) (min_le_left 1 _)

/-- C10 witness: on the constant array `[5, 5, 5]` the stddev is `0`, the
guard fires, and the normalized intensity of layer 0 is exactly `0.5`. -/
theorem fallback_guard_and_bounds_witness :
    0 < ([(5 : ℚ), 5, 5]).length ∧ 0 < ([(5 : ℚ), 5, 5]).length ∧
    stddevQ [(5 : ℚ), 5, 5] < 1 / 100000000 ∧
    fallbackNormalized [(5 : ℚ), 5, 5] 0 = 1 / 2 := by
  have hstd : stddevQ [(5 : ℚ), 5, 5] < 1 / 100000000 := by
    rw [stddevQ_const3]; norm_num
  exact ⟨by decide, by decide, hstd,
    (fallback_guard_and_bounds [(5 : ℚ), 5, 5] 0 (by decide) (by decide)).1 hstd⟩

/-! ## C3 — flat payload layout and `getSliceOffset` -/

theorem flatMap_range'_length {α : Type} (g : ℕ → List α) (m : ℕ)
    (hg : ∀ i, (g i).length = m) :
    ∀ (n s : ℕ), ((List.range' s n).flatMap g).length = n * m := by
  intro n
  induction n with
  | zero => intro s; simp
  | succ n ih =>
    intro s
    rw [List.range'_succ, List.flatMap_cons, List.length_append, hg, ih]
    ring

theorem flatMap_range'_extract {α : Type} (g : ℕ → List α) (m : ℕ)
    (hg : ∀ i, (g i).length = m) :
    ∀ (n s i : ℕ), i < n →
      (((List.range' s n).flatMap g).drop (i * m)).take m = g (s + i) := by
  intro n
  induction n with
  | zero => intro s i h; exact absurd h (Nat.not_lt_zero i)
  | succ n ih =>
    intro s i h
    rw [List.range'_succ, List.flatMap_cons]
    cases i with
    | zero =>
      rw [Nat.zero_mul, List.drop_zero, Nat.add_zero, ← hg s]
      exact List.take_left _ _
    | succ i =>
      have hm : (i + 1) * m = (g s).length + i * m := by rw [hg]; ring
      have heq : s + (i + 1) = (s + 1) + i := by omega
      rw [hm, List.drop_append, heq]
      exact ih (s + 1) i (Nat.lt_of_succ_lt_succ h)

theorem flattenSlice_length (g : ℕ → ℕ → ℚ) (sq dm : ℕ) :
    (flattenSlice g sq dm).length = sq * dm := by
  rw [flattenSlice, List.range_eq_range']
  exact flatMap_range'_length _ dm
    (fun p => by rw [List.length_map, List.length_range]) sq 0

/-- C3: the flat single-precision payload is laid out layer-major, then
sub-component (`NUM_SLICES = 6` per layer), then sequence position, then
feature index, and `getSliceOffset` computes exactly the flat offset
`(l * S + s) * seq_len * d_model` of slice `(l, s)` — dropping that many
elements and taking `seq_len * d_model` recovers precisely that slice, so
the consumer can index the payload from the declared shapes alone. -/
theorem flat_layout_slice_offset (f : ℕ → ℕ → ℕ → ℕ → ℚ) (L sq dm l sl : ℕ)
    (hl : l < L) (hs : sl < NUM_SLICES) :
    getSliceOffset l sl sq dm = (l * NUM_SLICES + sl) * sq * dm ∧
    ((flattenActs f L sq dm).drop (getSliceOffset l sl sq dm)).take (sq * dm)
      = flattenSlice (f l sl) sq dm := by
  refine ⟨rfl, ?_⟩
  have hblock : ∀ l',
      ((List.range NUM_SLICES).flatMap fun sl' => flattenSlice (f l' sl') sq dm).length
        = NUM_SLICES * (sq * dm) := by
    intro l'
    rw [List.range_eq_range']
    exact flatMap_range'_length _ (sq * dm)
      (fun sl' => flattenSlice_length (f l' sl') sq dm) NUM_SLICES 0
  have hlayer :
      ((flattenActs f L sq dm).drop (l * (NUM_SLICES * (sq * dm)))).take
          (NUM_SLICES * (sq * dm))
        = (List.range NUM_SLICES).flatMap fun sl' => flattenSlice (f l sl') sq dm := by
    have hrw : flattenActs f L sq dm
        = (List.range' 0 L).flatMap fun l' =>
            (List.range NUM_SLICES).flatMap fun sl' => flattenSlice (f l' sl') sq dm := by
      rw [flattenActs, List.range_eq_range']; rfl
    rw [hrw]
    have h := flatMap_range'_extract _ (NUM_SLICES * (sq * dm)) hblock L 0 l hl
    simpa using h
  have hsub :
      (((List.range NUM_SLICES).flatMap fun sl' => flattenSlice (f l sl') sq dm).drop
          (sl * (sq * dm))).take (sq * dm)
        = flattenSlice (f l sl) sq dm := by
    rw [List.range_eq_range']
    have h := flatMap_range'_extract _ (sq * dm)
      (fun sl' => flattenSlice_length (f l sl') sq dm) NUM_SLICES 0 sl hs
    simpa using h
  have hoff : getSliceOffset l sl sq dm
      = l * (NUM_SLICES * (sq * dm)) + sl * (sq * dm) := by
    rw [getSliceOffset]; ring
  have hle : sl * (sq * dm) + sq * dm ≤ NUM_SLICES * (sq * dm) := by
    have h1 : (sl + 1) * (sq * dm) ≤ NUM_SLICES * (sq * dm) :=
      Nat.mul_le_mul_right (sq * dm) hs
    have h2 : (sl + 1) * (sq * dm) = sl * (sq * dm) + sq * dm := by ring
    omega
  rw [hoff, ← hsub, hlayer.symm, List.drop_take, List.drop_drop, List.take_take]
  congr 1
  omega

/-- C3 witness: in a 2-layer, `seq_len = 1`, `d_model = 2` payload, the
slice at `(layer 1, sub-component 2)` sits at `getSliceOffset 1 2 1 2`. -/
theorem flat_layout_slice_offset_witness :
    1 < 2 ∧ 2 < NUM_SLICES ∧
    getSliceOffset 1 2 1 2 = (1 * NUM_SLICES + 2) * 1 * 2 ∧
    ((flattenActs (fun l sl p j => (l * 1000 + sl * 100 + p * 10 + j : ℚ)) 2 1 2).drop
        (getSliceOffset 1 2 1 2)).take (1 * 2)
      = flattenSlice (fun p j => ((1 : ℕ) * 1000 + (2 : ℕ) * 100 + p * 10 + j : ℚ)) 1 2 :=
  ⟨by decide, by decide,
    (flat_layout_slice_offset (fun l sl p j => (l * 1000 + sl * 100 + p * 10 + j : ℚ))
        2 1 2 1 2 (by decide) (by decide)).1,
    (flat_layout_slice_offset (fun l sl p j => (l * 1000 + sl * 100 + p * 10 + j : ℚ))
        2 1 2 1 2 (by decide) (by decide)).2⟩

/-! ## C6 — history store capacity and eviction -/

theorem fillStore_invariant (α : Type) (cap : ℕ) (hcap : 1 ≤ cap) (f : ℕ → α) :
    ∀ n : ℕ, (fillStore α cap f n).cap = cap ∧
      (fillStore α cap f n).nextStep = n ∧
      (fillStore α cap f n).entries
        = (List.range' (n - min n cap) (min n cap)).map fun s => (s, f s) := by
  intro n
  induction n with
  | zero =>
    refine ⟨rfl, rfl, ?_⟩
    simp [fillStore, HistoryStore.empty]
  | succ n ih =>
    obtain ⟨hc, hn, he⟩ := ih
    have hlen : (fillStore α cap f n).entries.length = min n cap := by
      rw [he, List.length_map, List.length_range']
    refine ⟨hc, ?_, ?_⟩
    · rw [show (fillStore α cap f (n + 1)).nextStep
          = (fillStore α cap f n).nextStep + 1 from rfl, hn]
    rw [show (fillStore α cap f (n + 1)).entries
        = (if (fillStore α cap f n).cap ≤ (fillStore α cap f n).entries.length
            then (fillStore α cap f n).entries.tail
            else (fillStore α cap f n).entries)
          ++ [((fillStore α cap f n).nextStep, f n)] from rfl, hc, hlen, hn]
    by_cases hlt : n < cap
    · have hmin : min n cap = n := min_eq_left (le_of_lt hlt)
      have hmin' : min (n + 1) cap = n + 1 := min_eq_left hlt
      rw [hmin, hmin', if_neg (by omega), he, hmin, Nat.sub_self, Nat.sub_self]
      rw [List.range'_concat, List.map_append]
      simp
    · have hge : cap ≤ n := le_of_not_lt hlt
      have hmin : min n cap = cap := min_eq_right hge
      have hmin' : min (n + 1) cap = cap := min_eq_right (by omega)
      rw [hmin, hmin', if_pos (le_refl cap), he, hmin]
      obtain ⟨c', rfl⟩ : ∃ c', cap = c' + 1 := ⟨cap - 1, by omega⟩
      rw [List.range'_succ, List.map_cons, List.tail_cons]
      have h1 : (n + 1) - (c' + 1) = (n - (c' + 1)) + 1 := by omega
      rw [h1, List.range'_concat, List.map_append]
      have h2 : n - (c' + 1) + 1 + 1 * c' = n := by omega
      rw [h2]
      simp

/-- C6: after appending steps `0..k` (with `k ≥ C`) into an initially
empty History Store of capacity `C ≥ 1`, the store holds at most `C`
records, `range()` returns exactly `[k - C + 1, k]`, and `get(s)` for
every evicted step `s < k - C + 1` returns the `Expired` error. -/
theorem history_store_eviction (α : Type) (C k : ℕ) (hC : 1 ≤ C) (hk : C ≤ k)
    (f : ℕ → α) :
    (fillStore α C f (k + 1)).entries.length ≤ C ∧
    (fillStore α C f (k + 1)).range = some (k - C + 1, k) ∧
    (∀ s, s < k - C + 1 → (fillStore α C f (k + 1)).get s = .error .expired) := by
  obtain ⟨hc, hn, he⟩ := fillStore_invariant α C hC f (k + 1)
  have hmin : min (k + 1) C = C := min_eq_right (by omega)
  have hstart : (k + 1) - min (k + 1) C = k - C + 1 := by rw [hmin]; omega
  rw [hstart, hmin] at he
  obtain ⟨C', hC'⟩ : ∃ C', C = C' + 1 := ⟨C - 1, by omega⟩
  have hhead : ((List.range' (k - C + 1) C).map fun s => (s, f s)).head?
      = some (k - C + 1, f (k - C + 1)) := by
    rw [hC', List.range'_succ]; rfl
  have hlast : ((List.range' (k - C + 1) C).map fun s => (s, f s)).getLast?
      = some (k, f k) := by
    rw [hC', List.range'_concat, List.map_append]
    simp only [List.map_cons, List.map_nil]
    rw [List.getLast?_concat]
    have h2 : k - (C' + 1) + 1 + 1 * C' = k := by omega
    rw [h2]
  refine ⟨?_, ?_, ?_⟩
  · rw [he, List.length_map, List.length_range']
  · rw [HistoryStore.range, he, hhead, hlast]
  · intro s hs
    have hfind : ((List.range' (k - C + 1) C).map fun t => (t, f t)).find?
        (fun e => e.1 = s) = none := by
      rw [List.find?_eq_none]
      rintro ⟨t, ft⟩ hmem
      simp only [List.mem_map] at hmem
      obtain ⟨t', ht', heq⟩ := hmem
      rw [List.mem_range'_1] at ht'
      have : t' = t := congrArg Prod.fst heq
      simp only [decide_eq_true_eq]
      omega
    rw [HistoryStore.get, he, hfind, hn]
    rw [if_pos (by omega)]

/-- C6 witness: capacity 2, steps `0..5`: `range() = [4, 5]` and
`get 0` is `Expired`. -/
theorem history_store_eviction_witness :
    1 ≤ 2 ∧ 2 ≤ 5 ∧
    ((fillStore ℕ 2 id 6).entries.length ≤ 2 ∧
      (fillStore ℕ 2 id 6).range = some (4, 5) ∧
      (∀ s, s < 4 → (fillStore ℕ 2 id 6).get s = .error .expired)) :=
  ⟨by decide, by decide, history_store_eviction ℕ 2 5 (by decide) (by decide) id⟩

/-! ## C7 — seek then step(+1) -/

/-- C7: from any resident step `s`, `seek(s)` lands in `Paused(s)`; the
following `step(+1)` targets `s + 1` and either lands in `Paused(s + 1)`
when `s + 1` is resident, or returns the `OutOfRange` error — the caller's
engine value is untouched by the failed call — when it is not; in neither
case is the operation a silent no-op. -/
theorem playback_seek_step (α : Type) (st : HistoryStore α) (e : Engine) (s : ℕ)
    (hres : residentB st s = true) :
    e.seek st s = .ok ⟨s, .paused s⟩ ∧
    (residentB st (s + 1) = true →
      (Engine.mk s (.paused s)).stepBy st 1 = .ok ⟨s + 1, .paused (s + 1)⟩) ∧
    (residentB st (s + 1) = false →
      (Engine.mk s (.paused s)).stepBy st 1 = .error .outOfRange) := by
  have htgt : ¬ ((s : ℤ) + 1 < 0) := by omega
  have htoNat : ((s : ℤ) + 1).toNat = s + 1 := by omega
  refine ⟨?_, ?_, ?_⟩
  · rw [Engine.seek, if_pos hres]
  · intro h
    rw [Engine.stepBy]
    simp only [if_neg htgt, htoNat, Engine.seek, h, if_pos]
  · intro h
    rw [Engine.stepBy]
    simp only [if_neg htgt, htoNat, Engine.seek, h]
    rw [if_neg (by simp [h])]

/-- C7 witness: in a store resident on `[2, 5]`, `seek(3)` then
`step(+1)` lands on step 4. -/
theorem playback_seek_step_witness :
    residentB (fillStore ℕ 4 id 6) 3 = true ∧
    (Engine.mk 0 .idle).seek (fillStore ℕ 4 id 6) 3 = .ok ⟨3, .paused 3⟩ ∧
    residentB (fillStore ℕ 4 id 6) 4 = true ∧
    (Engine.mk 3 (.paused 3)).stepBy (fillStore ℕ 4 id 6) 1 = .ok ⟨4, .paused 4⟩ :=
  ⟨by decide,
    (playback_seek_step ℕ (fillStore ℕ 4 id 6) (Engine.mk 0 .idle) 3 (by decide)).1,
    by decide,
    (playback_seek_step ℕ (fillStore ℕ 4 id 6) (Engine.mk 0 .idle) 3 (by decide)).2.1
      (by decide)⟩

/-! ## C5 — lossless chunk round-trip, in any arrival order -/

theorem writeChunk_covered (buf : ℕ → Option ℕ) (ch : Chunk) (j : ℕ)
    (h : ch.covers j) :
    writeChunk buf ch j = some (ch.bytes.getD (j - ch.header.byte_offset) 0) := by
  simp only [writeChunk]
  rw [if_pos h]

theorem foldl_writeChunk_none (j : ℕ) (cs : List Chunk) :
    ∀ buf : ℕ → Option ℕ, (∀ ch ∈ cs, ¬ ch.covers j) →
      cs.foldl writeChunk buf j = buf j := by
  induction cs with
  | nil => intro buf _; rfl
  | cons a rest ih =>
    intro buf h
    rw [List.foldl_cons, ih (writeChunk buf a)
      (fun ch hm => h ch (List.mem_cons_of_mem a hm))]
    simp only [writeChunk]
    rw [if_neg (h a (List.mem_cons_self a rest))]

theorem foldl_writeChunk_unique (j : ℕ) (ch₀ : Chunk) (hcov : ch₀.covers j)
    (cs : List Chunk) :
    ∀ buf : ℕ → Option ℕ, ch₀ ∈ cs → (∀ ch ∈ cs, ch.covers j → ch = ch₀) →
      cs.foldl writeChunk buf j
        = some (ch₀.bytes.getD (j - ch₀.header.byte_offset) 0) := by
  induction cs with
  | nil => intro buf hmem _; cases hmem
  | cons a rest ih =>
    intro buf hmem huniq
    rw [List.foldl_cons]
    by_cases hrest : ∃ ch ∈ rest, ch.covers j
    · obtain ⟨ch, hch, hcovch⟩ := hrest
      have hea : ch = ch₀ := huniq ch (List.mem_cons_of_mem a hch) hcovch
      exact ih (writeChunk buf a) (hea ▸ hch)
        (fun ch' h' hc' => huniq ch' (List.mem_cons_of_mem a h') hc')
    · push_neg at hrest
      rw [foldl_writeChunk_none j rest (writeChunk buf a) hrest]
      have ha : ch₀ = a := by
        rcases List.mem_cons.mp hmem with h | h
        · exact h
        · exact absurd hcov (hrest ch₀ h)
      rw [← ha]
      exact writeChunk_covered buf ch₀ j hcov

theorem reassembleBuf_chunkify (b : ℕ) (payload : List ℕ) (c : ℕ) (hc : 0 < c)
    (cs : List Chunk) (hperm : cs.Perm (chunkify b payload c)) (j : ℕ)
    (hj : j < payload.length) :
    reassembleBuf cs j = some (payload.getD j 0) := by
  have hij : (j / c) * c ≤ j := Nat.div_mul_le_self j c
  have hij2 : j < (j / c) * c + c := by
    have hmod := Nat.div_add_mod j c
    have hmlt : j % c < c := Nat.mod_lt j hc
    have hcm : c * (j / c) = (j / c) * c := Nat.mul_comm c (j / c)
    omega
  have hi₀ : j / c < chunkCount payload.length c := by
    have h1 : j / c ≤ (payload.length - 1) / c := Nat.div_le_div_right (by omega)
    have h3 : (payload.length - 1 + c) / c = (payload.length - 1) / c + 1 :=
      Nat.add_div_right _ hc
    have h4 : chunkCount payload.length c = (payload.length - 1 + c) / c := by
      rw [chunkCount]
      congr 1
      omega
    omega
  have hblen : ∀ i : ℕ, ((payload.drop (i * c)).take c).length
      = min c (payload.length - i * c) := by
    intro i
    rw [List.length_take, List.length_drop]
  have hcov₀ : (Chunk.mk
      ⟨b, j / c, chunkCount payload.length c, (j / c) * c⟩
      ((payload.drop ((j / c) * c)).take c)).covers j := by
    refine ⟨hij, ?_⟩
    have h5 := hblen (j / c)
    rw [Nat.min_def] at h5
    simp only [h5]
    split <;> omega
  have hmem₀ : (Chunk.mk
      ⟨b, j / c, chunkCount payload.length c, (j / c) * c⟩
      ((payload.drop ((j / c) * c)).take c)) ∈ chunkify b payload c :=
    List.mem_map.mpr ⟨j / c, List.mem_range.mpr hi₀, rfl⟩
  have huniq : ∀ ch ∈ cs, ch.covers j → ch = Chunk.mk
      ⟨b, j / c, chunkCount payload.length c, (j / c) * c⟩
      ((payload.drop ((j / c) * c)).take c) := by
    intro ch hch hcovch
    have hch' : ch ∈ chunkify b payload c := hperm.mem_iff.mp hch
    obtain ⟨i, hi, rfl⟩ := List.mem_map.mp hch'
    rw [List.mem_range] at hi
    obtain ⟨hle, hlt⟩ := hcovch
    simp only at hle hlt
    have h5 := hblen i
    rw [Nat.min_def] at h5
    rw [h5] at hlt
    have h6 : j < (i + 1) * c := by
      have h7 : (i + 1) * c = i * c + c := by ring
      split at hlt <;> omega
    have h8 : j / c = i := Nat.div_eq_of_lt_le hle h6
    rw [h8]
  have hval := foldl_writeChunk_unique j _ hcov₀ cs (fun _ => none)
    (hperm.mem_iff.mpr hmem₀) huniq
  rw [reassembleBuf, hval]
  congr 1
  simp only
  rw [List.getD_eq_getElem?_getD, List.getElem?_take]
  rw [if_pos (by omega)]
  rw [List.getElem?_drop]
  rw [show (j / c) * c + (j - (j / c) * c) = j by omega]
  rw [List.getElem?_eq_getElem hj]
  rw [List.getD_eq_getElem?_getD, List.getElem?_eq_getElem hj]

/-- C5: chunking a serialized payload and reassembling the chunks on the
consumer side — in any arrival order — reproduces the payload
byte-for-byte. -/
theorem chunk_roundtrip (b : ℕ) (payload : List ℕ) (c : ℕ) (hc : 0 < c)
    (cs : List Chunk) (hperm : cs.Perm (chunkify b payload c)) :
    reassemble payload.length cs = payload := by
  apply List.ext_getElem
  · rw [reassemble, List.length_map, List.length_range]
  · intro j h1 h2
    simp only [reassemble, List.getElem_map, List.getElem_range]
    rw [reassembleBuf_chunkify b payload c hc cs hperm j h2]
    rw [Option.getD_some, List.getD_eq_getElem?_getD, List.getElem?_eq_getElem h2]
    rfl

/-- C5 witness: a 10-byte payload cut into chunks of 4 (lengths
`[4, 4, 2]`) reassembles byte-identically even when the chunks arrive in
reverse order. -/
theorem chunk_roundtrip_witness :
    0 < 4 ∧
    ((chunkify 7 [10, 20, 30, 40, 50, 60, 70, 80, 90, 100] 4).reverse).Perm
      (chunkify 7 [10, 20, 30, 40, 50, 60, 70, 80, 90, 100] 4) ∧
    reassemble ([10, 20, 30, 40, 50, 60, 70, 80, 90, 100] : List ℕ).length
        ((chunkify 7 [10, 20, 30, 40, 50, 60, 70, 80, 90, 100] 4).reverse)
      = [10, 20, 30, 40, 50, 60, 70, 80, 90, 100] :=
  ⟨by decide, by decide,
    chunk_roundtrip 7 [10, 20, 30, 40, 50, 60, 70, 80, 90, 100] 4 (by decide)
      ((chunkify 7 [10, 20, 30, 40, 50, 60, 70, 80, 90, 100] 4).reverse) (by decide)⟩

end Rikugan
